import Mathlib

/-!
Shallow embedding of the playing-card module (`OOPexam2.py`): the `Card`
data model (suit/rank enumerations with their integer values, equality,
the rank-then-suit comparisons, display names), the `Deck` operations
(full-deck generation, shuffling modelled as Fisher–Yates driven by an
oracle of random choices, drawing from the front, Python-style indexing,
max/min), and the `fair_deck` duplicate-detection guard.  Python lists
are embedded as `List Card`; `None` results as `Option`; the raised
`DeckCheatingError` as the `Except.error` branch carrying the message
string; `NotImplemented` returned for a non-`Card` comparand as `none`.
-/

/-- `Card.CardSuit` enumeration: SPADES = 1, HEARTS = 2, DIAMONDS = 3, CLUBS = 4. -/
inductive CardSuit where
  | SPADES
  | HEARTS
  | DIAMONDS
  | CLUBS
deriving DecidableEq, Fintype, Repr

/-- The `.value` of a suit member. -/
def CardSuit.value : CardSuit → Nat
  | .SPADES => 1
  | .HEARTS => 2
  | .DIAMONDS => 3
  | .CLUBS => 4

/-- Iteration order of `for suit in Card.CardSuit`: definition order. -/
def CardSuit.members : List CardSuit :=
  [.SPADES, .HEARTS, .DIAMONDS, .CLUBS]

/-- `suit.name.title()` evaluated for each member (names are all-alphabetic). -/
def CardSuit.titleName : CardSuit → String
  | .SPADES => "Spades"
  | .HEARTS => "Hearts"
  | .DIAMONDS => "Diamonds"
  | .CLUBS => "Clubs"

/-- `Card.CardRank` enumeration: TWO = 2 .. TEN = 10, JACK = 11, QUEEN = 12,
KING = 13, ACE = 14. -/
inductive CardRank where
  | TWO
  | THREE
  | FOUR
  | FIVE
  | SIX
  | SEVEN
  | EIGHT
  | NINE
  | TEN
  | JACK
  | QUEEN
  | KING
  | ACE
deriving DecidableEq, Fintype, Repr

/-- The `.value` of a rank member. -/
def CardRank.value : CardRank → Nat
  | .TWO => 2
  | .THREE => 3
  | .FOUR => 4
  | .FIVE => 5
  | .SIX => 6
  | .SEVEN => 7
  | .EIGHT => 8
  | .NINE => 9
  | .TEN => 10
  | .JACK => 11
  | .QUEEN => 12
  | .KING => 13
  | .ACE => 14

/-- Iteration order of `for rank in Card.CardRank`: definition order. -/
def CardRank.members : List CardRank :=
  [.TWO, .THREE, .FOUR, .FIVE, .SIX, .SEVEN, .EIGHT, .NINE, .TEN,
   .JACK, .QUEEN, .KING, .ACE]

/-- `rank.name.title()` evaluated for each member. -/
def CardRank.titleName : CardRank → String
  | .TWO => "Two"
  | .THREE => "Three"
  | .FOUR => "Four"
  | .FIVE => "Five"
  | .SIX => "Six"
  | .SEVEN => "Seven"
  | .EIGHT => "Eight"
  | .NINE => "Nine"
  | .TEN => "Ten"
  | .JACK => "Jack"
  | .QUEEN => "Queen"
  | .KING => "King"
  | .ACE => "Ace"

/-- A `Card`: the immutable pair of `_suit` and `_rank` set by `__init__`. -/
structure Card where
  suit : CardSuit
  rank : CardRank
deriving DecidableEq, Fintype, Repr

/-- `Card.get_display_name`: the string `Rank.title() ++ " of " ++ Suit.title()`. -/
def Card.get_display_name (c : Card) : String :=
  c.rank.titleName ++ " of " ++ c.suit.titleName

/-- The Card-to-Card branch of `Card.__eq__`:
`self._rank == other._rank and self._suit == other._suit`. -/
def Card.eqCard (self other : Card) : Bool :=
  self.rank == other.rank && self.suit == other.suit

/-- The Card-to-Card branch of `Card.__lt__`: compare `.value` of ranks when
they differ, otherwise `.value` of suits. -/
def Card.ltCard (self other : Card) : Bool :=
  if self.rank.value ≠ other.rank.value then
    self.rank.value < other.rank.value
  else
    self.suit.value < other.suit.value

/-- The Card-to-Card branch of `Card.__gt__`: compare `.value` of ranks when
they differ, otherwise `.value` of suits. -/
def Card.gtCard (self other : Card) : Bool :=
  if self.rank.value ≠ other.rank.value then
    self.rank.value > other.rank.value
  else
    self.suit.value > other.suit.value

/-- A Python value passed as `other` to a `Card` dunder method: either a
`Card` or some non-`Card` value (abstracted by a tag). -/
inductive PyVal where
  | card (c : Card)
  | other (n : Nat)
deriving DecidableEq

/-- `Card.__eq__` with its `isinstance` check: `none` models the
`NotImplemented` sentinel returned for a non-`Card` comparand. -/
def Card.pyEq (self : Card) : PyVal → Option Bool
  | .card o => some (self.eqCard o)
  | .other _ => none

/-- `Card.__lt__` with its `isinstance` check; `none` is `NotImplemented`. -/
def Card.pyLt (self : Card) : PyVal → Option Bool
  | .card o => some (self.ltCard o)
  | .other _ => none

/-- `Card.__gt__` with its `isinstance` check; `none` is `NotImplemented`. -/
def Card.pyGt (self : Card) : PyVal → Option Bool
  | .card o => some (self.gtCard o)
  | .other _ => none

/-- `Deck._generate_full_deck`: the list comprehension with the outer loop
over suits in enumeration order and the inner loop over ranks in
enumeration order. -/
def Deck.generate_full_deck : List Card :=
  CardSuit.members.flatMap (fun suit => CardRank.members.map (fun rank => Card.mk suit rank))

/-- One Python tuple-swap `x[i], x[j] = x[j], x[i]` on a list (identity when
an index is out of range; `random.shuffle` only uses in-range indices). -/
def listSwap (l : List Card) (i j : Nat) : List Card :=
  match l[i]?, l[j]? with
  | some a, some b => (l.set i b).set j a
  | _, _ => l

/-- The loop of `random.shuffle`: `for i in reversed(range(1, len(x)))`,
swapping `x[i]` with `x[j]` where `j = randbelow(i + 1)`.  The random draws
come from the oracle `js`; `% (i + 1)` records that `randbelow(i + 1)`
yields a value in `0 .. i`. -/
def shuffleLoop : List Card → Nat → List Nat → List Card
  | l, 0, _ => l
  | l, _ + 1, [] => l
  | l, i + 1, j :: rest => shuffleLoop (listSwap l (i + 1) (j % (i + 2))) i rest

/-- `Deck.shuffle` = `random.shuffle(self._cards)`, the Fisher–Yates pass
over the whole list driven by the oracle of random choices. -/
def Deck.shuffle (cards : List Card) (js : List Nat) : List Card :=
  shuffleLoop cards (cards.length - 1) js

/-- `Deck.__init__(shuffle)`: generate the full deck, then shuffle it in
place when `shuffle` is true. -/
def Deck.init (shuffle : Bool) (js : List Nat) : List Card :=
  if shuffle then Deck.shuffle Deck.generate_full_deck js else Deck.generate_full_deck

/-- `Deck.draw`: `self._cards.pop(0) if self._cards else None`, returning
the drawn card (if any) together with the deck contents afterwards. -/
def Deck.draw : List Card → Option Card × List Card
  | [] => (none, [])
  | c :: rest => (some c, rest)

/-- `Deck.add_card`: `self._cards.append(card)`. -/
def Deck.addCard (cards : List Card) (c : Card) : List Card :=
  cards ++ [c]

/-- `Deck.__getitem__` for an integer index: Python list indexing, where a
negative index is first offset by the length and an index still out of
range raises `IndexError` (modelled by `none`). -/
def Deck.getitem (cards : List Card) (i : Int) : Option Card :=
  let j := if i < 0 then i + cards.length else i
  if 0 ≤ j ∧ j < (cards.length : Int) then cards[j.toNat]? else none

/-- `Deck.__getitem__` paired with the deck state after the call: the method
body only reads `self._cards`. -/
def Deck.getitemState (cards : List Card) (i : Int) : Option Card × List Card :=
  (Deck.getitem cards i, cards)

/-- `Deck.max`: `max(self._cards, default=None)` — the builtin keeps the
first element and replaces it whenever a later element compares greater
(Python `max` uses the `>` comparison), returning the default on an empty
iterable. -/
def Deck.max : List Card → Option Card
  | [] => none
  | c :: rest => some (rest.foldl (fun m x => if x.gtCard m then x else m) c)

/-- `Deck.min`: `min(self._cards, default=None)` — the builtin keeps the
first element and replaces it whenever a later element compares less
(Python `min` uses the `<` comparison). -/
def Deck.min : List Card → Option Card
  | [] => none
  | c :: rest => some (rest.foldl (fun m x => if x.ltCard m then x else m) c)

/-- The result of a function wrapped by `fair_deck`: either a `Deck`
(its card list) or some non-`Deck` value (abstracted by a tag). -/
inductive GuardResult where
  | deck (cards : List Card)
  | other (n : Nat)
deriving DecidableEq

/-- The scanning loop of `fair_deck`'s wrapper: walk the deck in order with
the set of cards seen so far, returning the first card already seen
(membership in a Python set of cards is by `__hash__`/`__eq__`, i.e. card
equality). -/
def dupScan : List Card → List Card → Option Card
  | _, [] => none
  | seen, c :: rest => if c ∈ seen then some c else dupScan (c :: seen) rest

/-- The `fair_deck` wrapper applied to a produced result: when the result is
a `Deck`, scan it and raise `DeckCheatingError` (the `Except.error` branch,
carrying the f-string message with `str(card)`) at the first duplicate;
otherwise pass the result through unchanged. -/
def fair_deck_check (result : GuardResult) : Except String GuardResult :=
  match result with
  | .deck cards =>
      match dupScan [] cards with
      | some c => .error ("Cheating detected: duplicate card " ++ c.get_display_name)
      | none => .ok (.deck cards)
  | r => .ok r

/-- A store of Python list objects: each address holds a list of cards.
`nextAddr` is the next fresh address. -/
structure PyHeap where
  nextAddr : Nat
  store : Nat → List Card

/-- Allocate a new list object holding `l`. -/
def PyHeap.alloc (h : PyHeap) (l : List Card) : Nat × PyHeap :=
  (h.nextAddr, ⟨h.nextAddr + 1, fun a => if a = h.nextAddr then l else h.store a⟩)

/-- In-place mutation of the list object at address `a`. -/
def PyHeap.write (h : PyHeap) (a : Nat) (l : List Card) : PyHeap :=
  ⟨h.nextAddr, fun x => if x = a then l else h.store x⟩

/-- The `Deck.cards` property: `return self._cards.copy()` — allocate a
fresh list object with the same contents and return its address. -/
def Deck.cardsProp (deckAddr : Nat) (h : PyHeap) : Nat × PyHeap :=
  h.alloc (h.store deckAddr)

/-- Two successive calls of the `cards` property with no intervening
mutation: the two returned addresses and the final heap. -/
def Deck.cardsTwice (deckAddr : Nat) (h : PyHeap) : Nat × Nat × PyHeap :=
  let r1 := Deck.cardsProp deckAddr h
  let r2 := Deck.cardsProp deckAddr r1.2
  (r1.1, r2.1, r2.2)

/-- A one-deck heap used to exercise the `cards` property: address 0 holds
an empty card list and is the only allocated object. -/
def demoHeap : PyHeap :=
  ⟨1, fun _ => []⟩

/-! ### Order lemmas for `Card.ltCard` / `Card.gtCard` -/

theorem Card.ltCard_iff (a b : Card) :
    a.ltCard b = true ↔
      (a.rank.value < b.rank.value ∨
        (a.rank.value = b.rank.value ∧ a.suit.value < b.suit.value)) := by
  unfold Card.ltCard
  by_cases h : a.rank.value = b.rank.value <;> simp [h]

theorem Card.gtCard_iff (a b : Card) :
    a.gtCard b = true ↔
      (b.rank.value < a.rank.value ∨
        (a.rank.value = b.rank.value ∧ b.suit.value < a.suit.value)) := by
  unfold Card.gtCard
  by_cases h : a.rank.value = b.rank.value <;> simp [h]

theorem Card.gtCard_eq_ltCard (a b : Card) : a.gtCard b = b.ltCard a := by
  rw [Bool.eq_iff_iff, Card.gtCard_iff, Card.ltCard_iff]
  omega

theorem CardRank.rankValue_injective : ∀ x y : CardRank, x.value = y.value → x = y := by
  decide

theorem CardSuit.suitValue_injective : ∀ x y : CardSuit, x.value = y.value → x = y := by
  decide

theorem Card.eq_iff_values (a b : Card) :
    a = b ↔ a.rank.value = b.rank.value ∧ a.suit.value = b.suit.value := by
  constructor
  · rintro rfl; exact ⟨rfl, rfl⟩
  · rintro ⟨hr, hs⟩
    cases a; cases b
    have hr2 := CardRank.rankValue_injective _ _ hr
    have hs2 := CardSuit.suitValue_injective _ _ hs
    simp only at hr2 hs2
    simp [hr2, hs2]

theorem Card.ltCard_eq_false_iff (a b : Card) :
    a.ltCard b = false ↔
      ¬(a.rank.value < b.rank.value ∨
        (a.rank.value = b.rank.value ∧ a.suit.value < b.suit.value)) := by
  rw [← Bool.not_eq_true, not_iff_not]
  exact Card.ltCard_iff a b

theorem Card.trichotomyCard (a b : Card) :
    (a.ltCard b = true ∧ a ≠ b ∧ a.gtCard b = false) ∨
      (a = b ∧ a.ltCard b = false ∧ a.gtCard b = false) ∨
      (a.gtCard b = true ∧ a ≠ b ∧ a.ltCard b = false) := by
  rcases Nat.lt_trichotomy a.rank.value b.rank.value with hr | hr | hr
  · refine Or.inl ⟨(Card.ltCard_iff a b).2 (Or.inl hr), ?_, ?_⟩
    · intro h; rw [Card.eq_iff_values] at h; omega
    · rw [← Bool.not_eq_true, Card.gtCard_iff]; omega
  · rcases Nat.lt_trichotomy a.suit.value b.suit.value with hs | hs | hs
    · refine Or.inl ⟨(Card.ltCard_iff a b).2 (Or.inr ⟨hr, hs⟩), ?_, ?_⟩
      · intro h; rw [Card.eq_iff_values] at h; omega
      · rw [← Bool.not_eq_true, Card.gtCard_iff]; omega
    · refine Or.inr (Or.inl ⟨(Card.eq_iff_values a b).2 ⟨hr, hs⟩, ?_, ?_⟩)
      · rw [← Bool.not_eq_true, Card.ltCard_iff]; omega
      · rw [← Bool.not_eq_true, Card.gtCard_iff]; omega
    · refine Or.inr (Or.inr ⟨(Card.gtCard_iff a b).2 (Or.inr ⟨hr.symm ▸ rfl, hs⟩), ?_, ?_⟩)
      · intro h; rw [Card.eq_iff_values] at h; omega
      · rw [← Bool.not_eq_true, Card.ltCard_iff]; omega
  · refine Or.inr (Or.inr ⟨(Card.gtCard_iff a b).2 (Or.inl hr), ?_, ?_⟩)
    · intro h; rw [Card.eq_iff_values] at h; omega
    · rw [← Bool.not_eq_true, Card.ltCard_iff]; omega

theorem Card.ltCard_trans (a b c : Card) :
    a.ltCard b = true → b.ltCard c = true → a.ltCard c = true := by
  rw [Card.ltCard_iff, Card.ltCard_iff, Card.ltCard_iff]
  omega

/-! ### The Fisher–Yates swaps only permute the list -/

theorem consSetPerm :
    ∀ (t : List Card) (k : Nat) (x b : Card), t[k]? = some b →
      (b :: t.set k x).Perm (x :: t) := by
  intro t
  induction t with
  | nil => intro k x b hb; simp at hb
  | cons y s ih =>
    intro k x b hb
    cases k with
    | zero =>
      rw [List.getElem?_cons_zero, Option.some.injEq] at hb
      subst hb
      rw [List.set_cons_zero]
      exact List.Perm.swap x y s
    | succ m =>
      rw [List.getElem?_cons_succ] at hb
      rw [List.set_cons_succ]
      have step := ih m x b hb
      exact ((List.Perm.swap y b (s.set m x)).trans (step.cons y)).trans
        (List.Perm.swap x y s)

theorem setSetPerm :
    ∀ (l : List Card) (i j : Nat) (a b : Card), l[i]? = some a → l[j]? = some b →
      ((l.set i b).set j a).Perm l := by
  intro l
  induction l with
  | nil => intro i j a b ha _; simp at ha
  | cons x t ih =>
    intro i j a b ha hb
    cases i with
    | zero =>
      rw [List.getElem?_cons_zero, Option.some.injEq] at ha
      subst ha
      cases j with
      | zero =>
        rw [List.getElem?_cons_zero, Option.some.injEq] at hb
        subst hb
        simp only [List.set_cons_zero]
        exact List.Perm.refl _
      | succ k =>
        rw [List.getElem?_cons_succ] at hb
        simp only [List.set_cons_zero, List.set_cons_succ]
        exact consSetPerm t k x b hb
    | succ m =>
      rw [List.getElem?_cons_succ] at ha
      cases j with
      | zero =>
        rw [List.getElem?_cons_zero, Option.some.injEq] at hb
        subst hb
        simp only [List.set_cons_succ, List.set_cons_zero]
        exact consSetPerm t m x a ha
      | succ k =>
        rw [List.getElem?_cons_succ] at hb
        simp only [List.set_cons_succ]
        exact (ih m k a b ha hb).cons x

theorem listSwap_eq_of_get (l : List Card) (i j : Nat) (a b : Card)
    (ha : l[i]? = some a) (hb : l[j]? = some b) :
    listSwap l i j = (l.set i b).set j a := by
  unfold listSwap
  rw [ha, hb]

theorem listSwap_eq_of_left_none (l : List Card) (i j : Nat) (h : l[i]? = none) :
    listSwap l i j = l := by
  unfold listSwap
  rw [h]

theorem listSwap_eq_of_right_none (l : List Card) (i j : Nat) (h : l[j]? = none) :
    listSwap l i j = l := by
  unfold listSwap
  rw [h]
  cases hI : l[i]? <;> rfl

theorem listSwap_perm (l : List Card) (i j : Nat) : (listSwap l i j).Perm l := by
  cases ha : l[i]? with
  | none => rw [listSwap_eq_of_left_none l i j ha]
  | some a =>
    cases hb : l[j]? with
    | none => rw [listSwap_eq_of_right_none l i j hb]
    | some b =>
      rw [listSwap_eq_of_get l i j a b ha hb]
      exact setSetPerm l i j a b ha hb

theorem shuffleLoop_perm :
    ∀ (i : Nat) (l : List Card) (js : List Nat), (shuffleLoop l i js).Perm l := by
  intro i
  induction i with
  | zero => intro l js; exact List.Perm.refl _
  | succ n ih =>
    intro l js
    cases js with
    | nil => exact List.Perm.refl _
    | cons j rest =>
      exact (ih _ rest).trans (listSwap_perm l (n + 1) (j % (n + 2)))

theorem Deck.shuffle_perm (cards : List Card) (js : List Nat) :
    (Deck.shuffle cards js).Perm cards :=
  shuffleLoop_perm (cards.length - 1) cards js

/-! ### The builtin max/min folds select a greatest/least element -/

theorem foldlMax_spec :
    ∀ (t : List Card) (h : Card),
      (t.foldl (fun m x => if x.gtCard m then x else m) h ∈ h :: t) ∧
      (∀ x ∈ h :: t,
        x = t.foldl (fun m x => if x.gtCard m then x else m) h ∨
          (x.ltCard (t.foldl (fun m x => if x.gtCard m then x else m) h)) = true) := by
  intro t
  induction t with
  | nil =>
    intro h
    refine ⟨by simp, ?_⟩
    intro x hx
    simp at hx
    subst hx
    left
    simp
  | cons y s ih =>
    intro h
    by_cases hg : y.gtCard h = true
    · rw [List.foldl_cons, if_pos hg]
      have hlt : h.ltCard y = true := by rw [← Card.gtCard_eq_ltCard]; exact hg
      refine ⟨?_, ?_⟩
      · have hm := (ih y).1
        simp only [List.mem_cons] at hm ⊢
        tauto
      · intro x hx
        rcases List.mem_cons.1 hx with rfl | hx2
        · rcases (ih y).2 y (List.mem_cons_self y s) with he | hlt2
          · right; rw [← he]; exact hlt
          · right; exact Card.ltCard_trans _ _ _ hlt hlt2
        · exact (ih y).2 x hx2
    · rw [List.foldl_cons, if_neg hg]
      have hg2 : y.gtCard h = false := by
        cases hgt : y.gtCard h
        · rfl
        · exact absurd hgt hg
      refine ⟨?_, ?_⟩
      · have hm := (ih h).1
        simp only [List.mem_cons] at hm ⊢
        tauto
      · intro x hx
        rcases List.mem_cons.1 hx with rfl | hx2
        · exact (ih x).2 x (List.mem_cons_self x s)
        · rcases List.mem_cons.1 hx2 with rfl | hx3
          · rcases Card.trichotomyCard x h with ⟨hxy, _, _⟩ | ⟨rfl, _, _⟩ | ⟨hgt, _, _⟩
            · rcases (ih h).2 h (List.mem_cons_self h s) with he | hlt2
              · right; rw [← he]; exact hxy
              · right; exact Card.ltCard_trans _ _ _ hxy hlt2
            · exact (ih x).2 x (List.mem_cons_self x s)
            · rw [hg2] at hgt
              exact absurd hgt (by simp)
          · exact (ih h).2 x (List.mem_cons.2 (Or.inr hx3))

theorem foldlMin_spec :
    ∀ (t : List Card) (h : Card),
      (t.foldl (fun m x => if x.ltCard m then x else m) h ∈ h :: t) ∧
      (∀ x ∈ h :: t,
        x = t.foldl (fun m x => if x.ltCard m then x else m) h ∨
          ((t.foldl (fun m x => if x.ltCard m then x else m) h).ltCard x) = true) := by
  intro t
  induction t with
  | nil =>
    intro h
    refine ⟨by simp, ?_⟩
    intro x hx
    simp at hx
    subst hx
    left
    simp
  | cons y s ih =>
    intro h
    by_cases hg : y.ltCard h = true
    · rw [List.foldl_cons, if_pos hg]
      refine ⟨?_, ?_⟩
      · have hm := (ih y).1
        simp only [List.mem_cons] at hm ⊢
        tauto
      · intro x hx
        rcases List.mem_cons.1 hx with rfl | hx2
        · rcases (ih y).2 y (List.mem_cons_self y s) with he | hlt2
          · right; rw [← he]; exact hg
          · right; exact Card.ltCard_trans _ _ _ hlt2 hg
        · exact (ih y).2 x hx2
    · rw [List.foldl_cons, if_neg hg]
      have hg2 : y.ltCard h = false := by
        cases hgt : y.ltCard h
        · rfl
        · exact absurd hgt hg
      refine ⟨?_, ?_⟩
      · have hm := (ih h).1
        simp only [List.mem_cons] at hm ⊢
        tauto
      · intro x hx
        rcases List.mem_cons.1 hx with rfl | hx2
        · exact (ih x).2 x (List.mem_cons_self x s)
        · rcases List.mem_cons.1 hx2 with rfl | hx3
          · rcases Card.trichotomyCard x h with ⟨hxy, _, _⟩ | ⟨rfl, _, _⟩ | ⟨hgt, _, _⟩
            · rw [hg2] at hxy
              exact absurd hxy (by simp)
            · exact (ih x).2 x (List.mem_cons_self x s)
            · have hxy : h.ltCard x = true := by
                rw [← Card.gtCard_eq_ltCard]; exact hgt
              rcases (ih h).2 h (List.mem_cons_self h s) with he | hlt2
              · right; rw [← he]; exact hxy
              · right; exact Card.ltCard_trans _ _ _ hlt2 hxy
          · exact (ih h).2 x (List.mem_cons.2 (Or.inr hx3))

/-! ### The duplicate scan of `fair_deck` -/

theorem dupScan_eq_none_iff :
    ∀ (l seen : List Card), dupScan seen l = none ↔ (l.Nodup ∧ ∀ c ∈ l, c ∉ seen) := by
  intro l
  induction l with
  | nil =>
    intro seen
    simp [dupScan]
  | cons c rest ih =>
    intro seen
    by_cases hc : c ∈ seen
    · refine iff_of_false ?_ ?_
      · simp [dupScan, hc]
      · rintro ⟨_, hall⟩
        exact hall c (List.mem_cons_self c rest) hc
    · rw [show dupScan seen (c :: rest) = dupScan (c :: seen) rest from by
        simp [dupScan, hc]]
      rw [ih (c :: seen)]
      constructor
      · rintro ⟨hnd, hall⟩
        refine ⟨List.nodup_cons.2 ⟨?_, hnd⟩, ?_⟩
        · intro hmem
          exact (hall c hmem) (List.mem_cons_self c seen)
        · intro x hx
          rcases List.mem_cons.1 hx with rfl | hx2
          · exact hc
          · intro hxs
            exact (hall x hx2) (List.mem_cons.2 (Or.inr hxs))
      · rintro ⟨hnd, hall⟩
        have hnd2 := List.nodup_cons.1 hnd
        refine ⟨hnd2.2, ?_⟩
        intro x hx hxcs
        rcases List.mem_cons.1 hxcs with rfl | hxs
        · exact hnd2.1 hx
        · exact (hall x (List.mem_cons.2 (Or.inr hx))) hxs

theorem dupScan_eq_some :
    ∀ (l seen : List Card) (c : Card), dupScan seen l = some c →
      ∃ pre post, l = pre ++ c :: post ∧ (∀ x ∈ pre, x ∉ seen) ∧ pre.Nodup ∧
        (c ∈ pre ∨ c ∈ seen) := by
  intro l
  induction l with
  | nil =>
    intro seen c h
    simp [dupScan] at h
  | cons a rest ih =>
    intro seen c h
    by_cases hc : a ∈ seen
    · have ha : a = c := by
        have := h
        simp [dupScan, hc] at this
        exact this
      subst ha
      exact ⟨[], rest, by simp, by simp, by simp, Or.inr hc⟩
    · have h2 : dupScan (a :: seen) rest = some c := by
        have := h
        simpa [dupScan, hc] using this
      obtain ⟨pre2, post2, heq, hnin, hnd, hmem⟩ := ih (a :: seen) c h2
      refine ⟨a :: pre2, post2, by simp [heq], ?_, ?_, ?_⟩
      · intro x hx
        rcases List.mem_cons.1 hx with rfl | hx2
        · exact hc
        · intro hxs
          exact (hnin x hx2) (List.mem_cons.2 (Or.inr hxs))
      · refine List.nodup_cons.2 ⟨?_, hnd⟩
        intro hmem2
        exact (hnin a hmem2) (List.mem_cons_self a seen)
      · rcases hmem with hp | hs
        · exact Or.inl (List.mem_cons.2 (Or.inr hp))
        · rcases List.mem_cons.1 hs with rfl | hs2
          · exact Or.inl (List.mem_cons_self c pre2)
          · exact Or.inr hs2

/-! ### Claim theorems -/

/-- C1: constructing a `Deck` with `shuffle=false` yields exactly the
canonical 52-card sequence (outer loop over the 4 suits in enumeration
order, inner loop over the 13 ranks), so the deck has 52 cards, one per
(suit, rank) combination, no duplicates, its front card is
`Card(Spades, Two)`, and a first `draw()` returns `Card(Spades, Two)`
leaving 51 cards in their original order. -/
theorem claim_C1_unshuffled_deck (js : List Nat) :
    Deck.init false js = Deck.generate_full_deck ∧
    (Deck.init false js).length = 52 ∧
    (Deck.init false js).Nodup ∧
    (∀ (s : CardSuit) (r : CardRank), Card.mk s r ∈ Deck.init false js) ∧
    (Deck.init false js).head? = some (Card.mk .SPADES .TWO) ∧
    Deck.draw (Deck.init false js) =
      (some (Card.mk .SPADES .TWO), (Deck.init false js).tail) ∧
    ((Deck.draw (Deck.init false js)).2).length = 51 := by
  have h : Deck.init false js = Deck.generate_full_deck := rfl
  rw [h]
  refine ⟨rfl, ?_, ?_, ?_, ?_, ?_, ?_⟩ <;> decide

/-- C2: `Card(s1, r1)` equals `Card(s2, r2)` (per `Card.__eq__`) iff
`s1 = s2` and `r1 = r2`. -/
theorem claim_C2_card_equality :
    ∀ (s1 s2 : CardSuit) (r1 r2 : CardRank),
      (Card.mk s1 r1).eqCard (Card.mk s2 r2) = true ↔ s1 = s2 ∧ r1 = r2 := by
  decide

/-- C3: the card comparison (rank value first, suit value as tie-break) is
a total order: for every pair exactly one of `a < b`, `a = b`, `a > b`
holds, and `<` is transitive. -/
theorem claim_C3_total_order :
    (∀ a b : Card,
      (a.ltCard b = true ∧ a ≠ b ∧ a.gtCard b = false) ∨
      (a = b ∧ a.ltCard b = false ∧ a.gtCard b = false) ∨
      (a.gtCard b = true ∧ a ≠ b ∧ a.ltCard b = false)) ∧
    (∀ a b c : Card, a.ltCard b = true → b.ltCard c = true → a.ltCard c = true) :=
  ⟨Card.trichotomyCard, Card.ltCard_trans⟩

/-- Witness for C3: transitivity applied at three concrete cards. -/
theorem claim_C3_total_order_witness :
    (Card.mk .SPADES .TWO).ltCard (Card.mk .HEARTS .TWO) = true ∧
    (Card.mk .HEARTS .TWO).ltCard (Card.mk .SPADES .THREE) = true ∧
    (Card.mk .SPADES .TWO).ltCard (Card.mk .SPADES .THREE) = true :=
  ⟨by decide, by decide,
    claim_C3_total_order.2 (Card.mk .SPADES .TWO) (Card.mk .HEARTS .TWO)
      (Card.mk .SPADES .THREE) (by decide) (by decide)⟩

/-- C4: on a nonempty deck `draw()` removes and returns the front card,
leaving the remaining cards in their original order (length one less);
on an empty deck it returns the absent result and the deck is unchanged. -/
theorem claim_C4_draw :
    (∀ (c : Card) (t : List Card),
      Deck.draw (c :: t) = (some c, t) ∧
      (Deck.draw (c :: t)).2.length = (c :: t).length - 1) ∧
    Deck.draw ([] : List Card) = (none, []) :=
  ⟨fun c t => ⟨rfl, by simp [Deck.draw]⟩, rfl⟩

/-- C5: `shuffle()` only permutes the deck — for every card list and every
oracle of random draws the result is a permutation (same multiset, same
length), and construction with `shuffle=true` yields a permutation of the
52-card unshuffled deck. -/
theorem claim_C5_shuffle_permutes :
    (∀ (cards : List Card) (js : List Nat),
      (Deck.shuffle cards js).Perm cards ∧
      (Deck.shuffle cards js).length = cards.length) ∧
    (∀ js : List Nat, (Deck.init true js).Perm Deck.generate_full_deck) := by
  refine ⟨fun cards js => ⟨Deck.shuffle_perm cards js,
    (Deck.shuffle_perm cards js).length_eq⟩, ?_⟩
  intro js
  simp only [Deck.init, if_true]
  exact Deck.shuffle_perm _ js

/-- C6: `max()`/`min()` return the greatest/least card of the deck per the
card total order and the absent result on an empty deck; on any full
52-card deck `max()` returns the Ace of Clubs (highest suit value on the
rank tie). -/
theorem claim_C6_max_min :
    Deck.max ([] : List Card) = none ∧
    Deck.min ([] : List Card) = none ∧
    (∀ (c : Card) (t : List Card), ∃ m,
      Deck.max (c :: t) = some m ∧ m ∈ c :: t ∧
        ∀ x ∈ c :: t, x = m ∨ x.ltCard m = true) ∧
    (∀ (c : Card) (t : List Card), ∃ m,
      Deck.min (c :: t) = some m ∧ m ∈ c :: t ∧
        ∀ x ∈ c :: t, x = m ∨ m.ltCard x = true) ∧
    (∀ l : List Card, l.Perm Deck.generate_full_deck →
      Deck.max l = some (Card.mk .CLUBS .ACE)) := by
  refine ⟨rfl, rfl, ?_, ?_, ?_⟩
  · intro c t
    exact ⟨_, rfl, (foldlMax_spec t c).1, (foldlMax_spec t c).2⟩
  · intro c t
    exact ⟨_, rfl, (foldlMin_spec t c).1, (foldlMin_spec t c).2⟩
  · intro l hperm
    have hne : l ≠ [] := by
      intro h0
      have hlen := hperm.length_eq
      rw [h0] at hlen
      simp at hlen
      have : Deck.generate_full_deck.length = 52 := by decide
      omega
    obtain ⟨c, t, rfl⟩ := List.exists_cons_of_ne_nil hne
    have hspec := foldlMax_spec t c
    have hace : Card.mk .CLUBS .ACE ∈ c :: t :=
      hperm.mem_iff.2 (by decide)
    rcases hspec.2 _ hace with he | hlt
    · rw [show Deck.max (c :: t) = some (t.foldl
        (fun m x => if x.gtCard m then x else m) c) from rfl, ← he]
    · have hfalse : ∀ x : Card, (Card.mk .CLUBS .ACE).ltCard x = false := by decide
      rw [hfalse] at hlt
      exact absurd hlt (by simp)

/-- Witness for C6: the full-deck scenario at the unshuffled deck itself. -/
theorem claim_C6_max_min_witness :
    Deck.max Deck.generate_full_deck = some (Card.mk .CLUBS .ACE) :=
  claim_C6_max_min.2.2.2.2 Deck.generate_full_deck (List.Perm.refl _)

/-- C7: the `cards` property returns a defensive copy — two calls without
an intervening mutation return equal contents (both equal to the deck's
list), the calls leave the deck unchanged, and mutating one returned copy
changes neither the deck's list nor the other copy. -/
theorem claim_C7_cards_defensive_copy (h : PyHeap) (a : Nat)
    (ha : a < h.nextAddr) (l2 : List Card) :
    ((Deck.cardsTwice a h).2.2.store (Deck.cardsTwice a h).1 =
      (Deck.cardsTwice a h).2.2.store (Deck.cardsTwice a h).2.1) ∧
    ((Deck.cardsTwice a h).2.2.store (Deck.cardsTwice a h).1 = h.store a) ∧
    ((Deck.cardsTwice a h).2.2.store a = h.store a) ∧
    (((Deck.cardsTwice a h).2.2.write (Deck.cardsTwice a h).1 l2).store a =
      h.store a) ∧
    (((Deck.cardsTwice a h).2.2.write (Deck.cardsTwice a h).1 l2).store
        (Deck.cardsTwice a h).2.1 =
      (Deck.cardsTwice a h).2.2.store (Deck.cardsTwice a h).2.1) := by
  have h1 : a ≠ h.nextAddr := Nat.ne_of_lt ha
  have h2 : a ≠ h.nextAddr + 1 := by omega
  have h3 : h.nextAddr + 1 ≠ h.nextAddr := by omega
  have h4 : ¬(h.nextAddr + 1 = h.nextAddr) := h3
  simp [Deck.cardsTwice, Deck.cardsProp, PyHeap.alloc, PyHeap.write,
    h1, h2, h3, h4]

/-- Witness for C7: on the one-deck heap, writing to the first returned
copy leaves the deck's own list unchanged. -/
theorem claim_C7_cards_defensive_copy_witness :
    (0 : Nat) < demoHeap.nextAddr ∧
    ((Deck.cardsTwice 0 demoHeap).2.2.write (Deck.cardsTwice 0 demoHeap).1
        [Card.mk .SPADES .ACE]).store 0 = demoHeap.store 0 :=
  ⟨by decide,
    (claim_C7_cards_defensive_copy demoHeap 0 (by decide)
      [Card.mk .SPADES .ACE]).2.2.2.1⟩

/-- C8: the Integrity Guard raises the duplicate-card error iff the wrapped
result is a `Deck` containing two equal cards: a non-`Deck` result passes
through unchanged, a duplicate-free deck passes through unchanged, and a
deck with a duplicate yields the error carrying the first offending
card's display identity (the first card equal to an earlier one). -/
theorem claim_C8_fair_deck :
    (∀ n : Nat, fair_deck_check (.other n) = .ok (.other n)) ∧
    (∀ cards : List Card, cards.Nodup →
      fair_deck_check (.deck cards) = .ok (.deck cards)) ∧
    (∀ cards : List Card, ¬cards.Nodup →
      ∃ pre c post, cards = pre ++ c :: post ∧ pre.Nodup ∧ c ∈ pre ∧
        fair_deck_check (.deck cards) =
          .error ("Cheating detected: duplicate card " ++ c.get_display_name)) := by
  refine ⟨fun n => rfl, ?_, ?_⟩
  · intro cards hnd
    have hnone : dupScan [] cards = none :=
      (dupScan_eq_none_iff cards []).2 ⟨hnd, by simp⟩
    simp [fair_deck_check, hnone]
  · intro cards hnd
    have hne : dupScan [] cards ≠ none := by
      intro h0
      exact hnd ((dupScan_eq_none_iff cards []).1 h0).1
    obtain ⟨c, hc⟩ := Option.ne_none_iff_exists'.1 hne
    obtain ⟨pre, post, heq, _, hpnd, hmem⟩ := dupScan_eq_some cards [] c hc
    rcases hmem with hpre | hseen
    · exact ⟨pre, c, post, heq, hpnd, hpre, by simp [fair_deck_check, hc]⟩
    · simp at hseen

/-- Witness for C8: the spec scenario — a deck holding two identical
Spades-Ace cards is rejected with the duplicate-card error. -/
theorem claim_C8_fair_deck_witness :
    ∃ pre c post,
      ([Card.mk .SPADES .ACE, Card.mk .SPADES .ACE] : List Card) =
        pre ++ c :: post ∧ pre.Nodup ∧ c ∈ pre ∧
      fair_deck_check (.deck [Card.mk .SPADES .ACE, Card.mk .SPADES .ACE]) =
        .error ("Cheating detected: duplicate card " ++ c.get_display_name) :=
  claim_C8_fair_deck.2.2 [Card.mk .SPADES .ACE, Card.mk .SPADES .ACE] (by decide)

/-- C9: contract violations at the public interface are rejected
immediately without corrupting state: an index outside the valid Python
range makes `__getitem__` fail (no card; the deck list is untouched), and
equating or ordering a `Card` against a non-`Card` value is rejected by
the `isinstance` guard (the `NotImplemented` sentinel, modelled `none`,
with no state to corrupt since cards are immutable). -/
theorem claim_C9_contract_violations :
    (∀ (cards : List Card) (i : Int),
      (i < -(cards.length : Int) ∨ (cards.length : Int) ≤ i) →
        Deck.getitem cards i = none ∧ (Deck.getitemState cards i).2 = cards) ∧
    (∀ (c : Card) (n : Nat),
      c.pyEq (.other n) = none ∧ c.pyLt (.other n) = none ∧
        c.pyGt (.other n) = none) := by
  refine ⟨?_, fun c n => ⟨rfl, rfl, rfl⟩⟩
  intro cards i hi
  refine ⟨?_, rfl⟩
  simp only [Deck.getitem]
  rw [if_neg]
  by_cases h0 : i < 0
  · rw [if_pos h0]
    omega
  · rw [if_neg h0]
    omega

/-- Witness for C9: indexing position 5 of the empty deck fails and the
deck is unchanged. -/
theorem claim_C9_contract_violations_witness :
    Deck.getitem ([] : List Card) 5 = none ∧
      (Deck.getitemState ([] : List Card) 5).2 = [] :=
  claim_C9_contract_violations.1 [] 5 (by decide)

/-- C10: for a deck of length `n ≥ 1` and `-n ≤ i ≤ -1`, `__getitem__`
does not fail: it returns the `(n+i)`-th card counting from the front
(negative indices address cards from the back). -/
theorem claim_C10_negative_indexing :
    ∀ (cards : List Card) (i : Int),
      -(cards.length : Int) ≤ i → i ≤ -1 →
        ∃ c, Deck.getitem cards i = some c ∧
          cards[((cards.length : Int) + i).toNat]? = some c := by
  intro cards i h1 h2
  have hlen : 0 < cards.length := by omega
  have hneg : i < 0 := by omega
  have hcond : 0 ≤ i + (cards.length : Int) ∧
      i + (cards.length : Int) < (cards.length : Int) := by omega
  have hidx : (i + (cards.length : Int)).toNat < cards.length := by omega
  refine ⟨cards[(i + (cards.length : Int)).toNat], ?_, ?_⟩
  · simp only [Deck.getitem]
    rw [if_pos hneg, if_pos hcond]
    exact List.getElem?_eq_getElem hidx
  · have heq : ((cards.length : Int) + i) = (i + (cards.length : Int)) := by omega
    rw [heq]
    exact List.getElem?_eq_getElem hidx

/-- Witness for C10: index `-1` of a two-card deck returns its last card. -/
theorem claim_C10_negative_indexing_witness :
    ∃ c, Deck.getitem [Card.mk .SPADES .TWO, Card.mk .HEARTS .KING] (-1) =
        some c ∧
      ([Card.mk .SPADES .TWO, Card.mk .HEARTS .KING] :
        List Card)[((([Card.mk .SPADES .TWO, Card.mk .HEARTS .KING] :
          List Card).length : Int) + (-1)).toNat]? = some c :=
  claim_C10_negative_indexing [Card.mk .SPADES .TWO, Card.mk .HEARTS .KING]
    (-1) (by decide) (by decide)
